import Mathlib

/-! Verification of the Anubis call/review business logic.

Shallow embedding of the access-control predicates and derived-status
computation from `anubis/call.py`, `anubis/review.py`, `anubis/calls.py`
and `anubis/utils.py`.

Modelling conventions:
* Normalized local datetimes ('YYYY-MM-DD HH:MM' strings produced by
  `utils.normalize_datetime`) are represented as minute timestamps
  (`Nat`, minutes since an epoch).  Lexicographic comparison of two
  normalized datetime strings of this fixed shape agrees with numeric
  comparison of their minute timestamps, so the string comparisons
  `call['opens'] > now` of the Python code become `Nat` comparisons.
* The current instant (`datetime.datetime.now()`, which has sub-minute
  precision) is a second timestamp `nowS : Nat`;
  `utils.normalized_local_now()` truncates it to minutes.
* `utils.days_remaining` returns a Python float; only exact comparisons
  of it against the literals 7.0, 2.0, 1.0, 0.0 occur in the sources,
  so it is modelled as an exact rational.
* Unset or empty datetime fields (`None` or `""`, both falsy in Python)
  are `none`.
-/

namespace Anubis

/-- Model of `utils.normalized_local_now()`: current local date-time truncated to
minute precision, as a minute timestamp. -/
def normalized_local_now (nowS : Nat) : Nat := nowS / 60

/-- Model of `utils.days_remaining(dt)`: `(dt - now).total_seconds() / (24*3600)`,
for `dt` a normalized minute timestamp and the current instant `nowS`
in seconds, as an exact rational number of days. -/
def days_remaining (dt : Nat) (nowS : Nat) : ℚ :=
  ((dt * 60 : ℤ) - (nowS : ℤ)) / (24 * 3600 : ℚ)

/-- A user document, as far as the predicates read it: `username` and
`role` (from `anubis/__init__.py`, roles are "admin", "staff", "user"). -/
structure User where
  username : String
  role : String
deriving DecidableEq, Repr

/-- The per-request context `flask.g`: the logged-in user (`None` when
nobody is logged in), the current instant in seconds, and the rest of
the request environment (database handles, request data, ...) which the
predicates under study never read, abstracted as an opaque `Nat`. -/
structure Ctx where
  currentUser : Option User
  nowS : Nat
  requestExtra : Nat
deriving DecidableEq, Repr

/-- Model of `flask.g.is_admin` as set in `app.py`:
`flask.g.current_user and flask.g.current_user['role'] == constants.ADMIN`. -/
def g_is_admin (g : Ctx) : Bool :=
  match g.currentUser with
  | some u => u.role == "admin"
  | none => false

/-- Modelled from the spec: `flask.g.am_admin` is read by `review.py` and
`utils.py` but the code setting it is absent from the sources; following
`app.py`'s `is_admin`, it holds iff the logged-in user has the admin role. -/
def g_am_admin (g : Ctx) : Bool :=
  match g.currentUser with
  | some u => u.role == "admin"
  | none => false

/-- Modelled from the spec: `flask.g.am_staff` is read by `review.py` and
`utils.py` but the code setting it is absent from the sources; by analogy
with `am_admin`, it holds iff the logged-in user has the staff role. -/
def g_am_staff (g : Ctx) : Bool :=
  match g.currentUser with
  | some u => u.role == "staff"
  | none => false

/-- A call document, as far as the predicates read it.  `opens`,
`closes` and `reviews_due` are normalized minute timestamps (`none` when
unset).  `owner`, the `access` flags and `chairs` are read through the
helper functions `am_owner`, `am_chair`, `allow_view_reviews` of
`anubis.call`, which are absent from the sources. -/
structure Call where
  identifier : String
  opens : Option Nat
  closes : Option Nat
  reviews_due : Option Nat
  reviewers : List String
  chairs : List String
  owner : String
  access_allow_reviewers_view_all_reviews : Bool
  access_allow_chair_create_reviews : Bool
deriving DecidableEq, Repr

/-- Modelled from the spec: `anubis.call.am_owner` is called by
`review.py` but absent from the sources; it holds iff the logged-in
user is the call's owner. -/
def am_owner (g : Ctx) (call : Call) : Bool :=
  match g.currentUser with
  | some u => u.username == call.owner
  | none => false

/-- Modelled from the spec: `anubis.call.am_chair` is called by
`review.py` but absent from the sources; it holds iff the logged-in
user is one of the call's chairs. -/
def am_chair (g : Ctx) (call : Call) : Bool :=
  match g.currentUser with
  | some u => u.username ∈ call.chairs
  | none => false

/-- Modelled from the spec: `anubis.call.allow_view_reviews` is called by
`review.py` but absent from the sources; per the docstring of
`review.allow_view` ("Reviewer may view all reviews depending on access
flag for the call") it reads the call's access flag allowing reviewers
to view all reviews. -/
def allow_view_reviews (call : Call) : Bool :=
  call.access_allow_reviewers_view_all_reviews

/-- The `cache` dict computed by `call.set_call_cache`.  Count entries
are `Option` since the keys are only present for some sessions; the
status flags are always set by the open/closed section.  The
display-only `text` and `color` entries are not modelled. -/
structure CallCache where
  is_editable : Bool
  is_reviewer : Bool
  submissions_count : Option Nat
  my_submissions_count : Option Nat
  evaluations_count : Option Nat
  is_open : Bool
  is_closed : Bool
  is_published : Bool
deriving DecidableEq, Repr

/-- The open/closed status section of `call.set_call_cache`
(call.py lines 598-657): the triple (is_open, is_closed, is_published). -/
def call_status (call : Call) (nowS : Nat) : Bool × Bool × Bool :=
  let now := normalized_local_now nowS
  match call.opens with
  | some opens =>
    if opens > now then
      (false, false, false)
    else
      match call.closes with
      | some closes =>
        let remaining := days_remaining closes nowS
        if remaining > 7 then (true, false, true)
        else if remaining > 2 then (true, false, true)
        else if remaining ≥ 1 then (true, false, true)
        else if remaining ≥ 0 then (true, false, true)
        else (false, true, true)
      | none => (true, false, true)
  | none => (false, false, false)

/-- Model of `call.set_call_cache(call)`: computes the `cache` item of the call.
The counts come from `get_submissions_count` and
`get_call_evaluations_count` (in modules absent from the sources); their
return values are abstract inputs `subsCount`, `mySubsCount`,
`evalsCount` here. -/
def set_call_cache (g : Ctx) (call : Call)
    (subsCount mySubsCount evalsCount : Nat) : CallCache :=
  let cache0 : CallCache :=
    { is_editable := g_is_admin g
      is_reviewer := false
      submissions_count := none
      my_submissions_count := none
      evaluations_count := none
      is_open := false
      is_closed := false
      is_published := false }
  let cache1 :=
    if g_is_admin g then
      { cache0 with submissions_count := some subsCount, is_reviewer := true }
    else cache0
  let cache2 :=
    match g.currentUser with
    | some u =>
      { cache1 with
          my_submissions_count := some mySubsCount
          is_reviewer := decide (u.username ∈ call.reviewers)
          evaluations_count := some evalsCount }
    | none => cache1
  let st := call_status call g.nowS
  { cache2 with is_open := st.1, is_closed := st.2.1, is_published := st.2.2 }

/-- A review document.  `rid` is the CouchDB document `_id` (`iuid`).
`finalized` is a timestamp set by `review.finalize` and tested only for
truthiness, so it is a `Bool`; likewise `archived`.  `errors` is the
review's errors mapping (field identifier to message), tested for
emptiness. -/
structure Review where
  rid : Nat
  proposal : String
  reviewer : String
  call : String
  finalized : Bool
  archived : Bool
  errors : List (String × String)
deriving DecidableEq, Repr

/-- Model of `review.allow_view(review)`.  The `call` argument stands for
`anubis.call.get_call(review['call'])`. -/
def allow_view (g : Ctx) (review : Review) (call : Call) : Bool :=
  match g.currentUser with
  | none => false
  | some u =>
    if g_am_admin g then true
    else if g_am_staff g then true
    else if u.username == review.reviewer then true
    else if am_chair g call then true
    else if am_owner g call then true
    else if allow_view_reviews call && review.finalized then true
    else false

/-- Model of `review.allow_edit(review)`: the admin, call owner and reviewer may
edit an unfinalized review. -/
def allow_edit (g : Ctx) (review : Review) (call : Call) : Bool :=
  if review.finalized then false
  else if review.archived then false
  else
    match g.currentUser with
    | none => false
    | some u =>
      if g_am_admin g then true
      else if u.username == review.reviewer then true
      else if am_owner g call then true
      else false

/-- Model of `review.allow_delete(review)`: the admin and call owner may delete a
review. -/
def allow_delete (g : Ctx) (review : Review) (call : Call) : Bool :=
  match g.currentUser with
  | none => false
  | some _ =>
    if g_am_admin g then true
    else if am_owner g call then true
    else false

/-- Model of `review.allow_finalize(review)`: the admin, call owner and reviewer
may finalize if it contains no errors. -/
def allow_finalize (g : Ctx) (review : Review) (call : Call) : Bool :=
  if review.finalized then false
  else if review.archived then false
  else if review.errors ≠ [] then false
  else
    match g.currentUser with
    | none => false
    | some u =>
      if g_am_admin g then true
      else if u.username == review.reviewer then true
      else if am_owner g call then true
      else false

/-- Model of `review.allow_unfinalize(review)`: the admin and call owner may
always unfinalize; the reviewer may unfinalize before the reviews due
date. -/
def allow_unfinalize (g : Ctx) (review : Review) (call : Call) : Bool :=
  if !review.finalized then false
  else if review.archived then false
  else
    match g.currentUser with
    | none => false
    | some u =>
      if g_am_admin g then true
      else if am_owner g call then true
      else if (match call.reviews_due with
               | some d => decide (days_remaining d g.nowS < 0)
               | none => false) then false
      else if u.username == review.reviewer then true
      else false

/-! Call listings (`anubis/calls.py`).  The CouchDB database is a list
of call documents; the design-document views `calls/closes` (emits
`doc.closes` for calls with both `opens` and `closes` set) and
`calls/open_ended` (emits `doc.opens` for calls with `opens` set and
`closes` unset) become filters over it; a CouchDB startkey/endkey range
is inclusive at both ends, and `'ZZZZZZ'` is above every normalized
datetime key.  Result order is irrelevant to the claims and is not
modelled. -/

/-- Modelled from the spec: `anubis.call.add_call_tmp`, called by
`calls.py`, is absent from the sources; per the spec's "cached, derived
status computation (open/closed/published state)" it attaches to the
call the same derived status triple as `set_call_cache` computes,
stored under `tmp`. -/
def add_call_tmp (nowS : Nat) (call : Call) : Call × (Bool × Bool × Bool) :=
  (call, call_status call nowS)

/-- Model of `calls.get_closed_calls()`: the `calls/closes` view restricted to
`startkey=''`, `endkey=now`, each call wrapped by `add_call_tmp`, then
filtered on `tmp['is_closed']`. -/
def get_closed_calls (db : List Call) (nowS : Nat) :
    List (Call × (Bool × Bool × Bool)) :=
  (((db.filter fun c =>
      c.opens.isSome &&
        (match c.closes with
         | some cl => decide (cl ≤ normalized_local_now nowS)
         | none => false)).map (add_call_tmp nowS)).filter
    fun ct => ct.2.2.1)

/-- Model of `calls.get_open_calls()`: the `calls/closes` view restricted to
`startkey=now`, `endkey='ZZZZZZ'`, followed by the `calls/open_ended`
view restricted to `startkey=''`, `endkey=now`, each call wrapped by
`add_call_tmp`; no further filtering. -/
def get_open_calls (db : List Call) (nowS : Nat) :
    List (Call × (Bool × Bool × Bool)) :=
  ((db.filter fun c =>
      c.opens.isSome &&
        (match c.closes with
         | some cl => decide (normalized_local_now nowS ≤ cl)
         | none => false)).map (add_call_tmp nowS)) ++
  ((db.filter fun c =>
      (match c.opens with
       | some o => decide (o ≤ normalized_local_now nowS)
       | none => false) && c.closes.isNone).map (add_call_tmp nowS))

/-! Review creation and unarchiving (`anubis/review.py`).  The reviews
database is a list of review documents; the `reviews/proposal_reviewer`
view (which skips archived reviews) becomes a filter over it. -/

/-- A proposal document, as far as `review.create` reads it:
`identifier`, the submitting `user`, the `call` identifier and the
`submitted` flag. -/
structure Proposal where
  identifier : String
  user : String
  call : String
  submitted : Bool
deriving DecidableEq, Repr

/-- Model of `review.get_reviewer_review(proposal, reviewer)`: first row of the
`reviews/proposal_reviewer` view (unarchived reviews only) with key
`[proposal['identifier'], reviewer['username']]`, or `None`. -/
def get_reviewer_review (db : List Review) (pid username : String) :
    Option Review :=
  (db.filter fun r =>
    !r.archived && r.proposal == pid && r.reviewer == username).head?

/-- Model of `review.get_review(iuid)`: the database document with the given id
(model: first match in the list). -/
def get_review (db : List Review) (rid : Nat) : Option Review :=
  (db.filter fun r => r.rid == rid).head?

/-- Model of `review.allow_create(proposal)`: the admin, call owner, and (when
the call's access flag permits) a chair may create a review for a
submitted proposal. -/
def allow_create (g : Ctx) (proposal : Proposal) (call : Call) : Bool :=
  if !proposal.submitted then false
  else
    match g.currentUser with
    | none => false
    | some _ =>
      if g_am_admin g then true
      else if am_chair g call && call.access_allow_chair_create_reviews then
        true
      else if am_owner g call then true
      else false

/-- Model of `ReviewSaver.set_unarchived`: a no-op on an unarchived review,
otherwise removes the archived mark (and the saved field definitions,
not modelled). -/
def set_unarchived (r : Review) : Review :=
  if r.archived then { r with archived := false } else r

/-- The `review.create(pid, username)` endpoint, as a transition on the
reviews database.  `user` is the result of
`anubis.user.get_user(username)` and `call` that of
`anubis.call.get_call(proposal['call'])`; `freshId` is the new
document's id.  Every refused branch (flash an error or redirect to the
existing review) leaves the database unchanged; otherwise a new
unarchived review with empty values and errors is saved. -/
def review_create (g : Ctx) (db : List Review) (proposal : Proposal)
    (call : Call) (user : Option User) (freshId : Nat) : List Review :=
  if !allow_create g proposal call then db
  else
    match user with
    | none => db
    | some u =>
      if u.username ∉ call.reviewers then db
      else
        match get_reviewer_review db proposal.identifier u.username with
        | some _ => db
        | none =>
          if proposal.user == u.username then db
          else db ++ [⟨freshId, proposal.identifier, u.username,
            proposal.call, false, false, []⟩]

/-- The `review.unarchive(iuid)` endpoint, as a transition on the
reviews database: fetch the review, require the delete privilege,
refuse when an unarchived review for the same proposal and reviewer
exists, otherwise save the review unarchived. -/
def review_unarchive (g : Ctx) (db : List Review) (rid : Nat)
    (call : Call) : List Review :=
  match get_review db rid with
  | none => db
  | some review =>
    if !allow_delete g review call then db
    else if (get_reviewer_review db review.proposal review.reviewer).isSome
      then db
    else db.map fun r => if r.rid == rid then set_unarchived r else r

/-- The module-docstring invariant of `review.py`: at most one
unarchived review per (proposal, reviewer) pair. -/
def unique_unarchived (db : List Review) : Prop :=
  ∀ r1 ∈ db, ∀ r2 ∈ db, r1.archived = false → r2.archived = false →
    r1.proposal = r2.proposal → r1.reviewer = r2.reviewer → r1 = r2

instance (db : List Review) : Decidable (unique_unarchived db) := by
  unfold unique_unarchived
  infer_instance

/-! Model of `utils.normalize_datetime` (utils.py lines 224-239), modelled at the
string level over ASCII character lists.  `datetime.strptime` for the
formats `%Y-%m-%d %H:%M` and `%Y-%m-%d` follows CPython's `_strptime`
regexes: `%Y` is exactly four digits, the other fields are one or two
digits within their ranges, the whole string must be consumed, and the
`datetime` constructor then validates the calendar date (year ≥ 1, day
within the month's length).  `strftime('%Y-%m-%d %H:%M')` zero-pads the
two-digit fields; the year is modelled as zero-padded to four digits. -/

/-- Python `str.strip()` / `str.split()` whitespace (ASCII). -/
def isPySpace (c : Char) : Bool :=
  c == ' ' || c == '\t' || c == '\n' || c == '\r' || c == '\x0b' || c == '\x0c'

/-- Model of `str.strip()`: remove leading and trailing whitespace. -/
def pyStrip (s : List Char) : List Char :=
  ((s.dropWhile isPySpace).reverse.dropWhile isPySpace).reverse

/-- Word accumulator for `str.split()`: `acc` is the current word,
reversed. -/
def pyWordsAcc (acc : List Char) : List Char → List (List Char)
  | [] => if acc = [] then [] else [acc.reverse]
  | c :: cs =>
    if isPySpace c then
      if acc = [] then pyWordsAcc [] cs
      else acc.reverse :: pyWordsAcc [] cs
    else pyWordsAcc (c :: acc) cs

/-- Model of `str.split()` with no separator: whitespace-separated words. -/
def pyWords (s : List Char) : List (List Char) := pyWordsAcc [] s

/-- Model of the join `' '.join(words)`. -/
def joinWords : List (List Char) → List Char
  | [] => []
  | [w] => w
  | w :: ws => w ++ ' ' :: joinWords ws

/-- A parsed datetime, as `datetime.datetime` restricted to the fields
of the normalized format. -/
structure PyDateTime where
  year : Nat
  month : Nat
  day : Nat
  hour : Nat
  minute : Nat
deriving DecidableEq, Repr

/-- Gregorian leap year, as `calendar.isleap`. -/
def isLeap (y : Nat) : Bool :=
  y % 4 == 0 && (!(y % 100 == 0) || y % 400 == 0)

/-- Length of the month, as validated by the `datetime` constructor. -/
def days_in_month (y m : Nat) : Nat :=
  if m = 2 then (if isLeap y then 29 else 28)
  else if m = 4 ∨ m = 6 ∨ m = 9 ∨ m = 11 then 30
  else 31

/-- The `datetime` constructor's validation of the parsed fields. -/
def valid_dt (d : PyDateTime) : Bool :=
  decide (1 ≤ d.year) && decide (d.year ≤ 9999) &&
  decide (1 ≤ d.month) && decide (d.month ≤ 12) &&
  decide (1 ≤ d.day) && decide (d.day ≤ days_in_month d.year d.month) &&
  decide (d.hour ≤ 23) && decide (d.minute ≤ 59)

/-- Maximal prefix of digit characters, with the remainder. -/
def splitDigits : List Char → List Char × List Char
  | [] => ([], [])
  | c :: cs =>
    if c.isDigit then
      let p := splitDigits cs
      (c :: p.1, p.2)
    else ([], c :: cs)

/-- Numeric value of a digit character. -/
def digitVal (c : Char) : Nat := c.toNat - 48

/-- A digit run stops here: the list is empty or starts with a
non-digit. -/
def headNotDigit (l : List Char) : Bool :=
  match l with
  | [] => true
  | c :: _ => !c.isDigit

/-- Decimal value of a digit run. -/
def natOfDigits (ds : List Char) : Nat :=
  ds.foldl (fun a c => 10 * a + digitVal c) 0

/-- Field `%Y`: exactly four digits. -/
def parseYear (s : List Char) : Option (Nat × List Char) :=
  let p := splitDigits s
  if p.1.length = 4 then some (natOfDigits p.1, p.2) else none

/-- Fields `%m`, `%d`, `%H`, `%M`: one or two digits whose value lies in the
field's regex range (the whole digit run must belong to the field). -/
def parseField (lo hi : Nat) (s : List Char) : Option (Nat × List Char) :=
  let p := splitDigits s
  if p.1.length = 0 then none
  else if p.1.length ≤ 2 then
    let v := natOfDigits p.1
    if lo ≤ v ∧ v ≤ hi then some (v, p.2) else none
  else none

/-- Expect a literal character. -/
def expectChar (c : Char) : List Char → Option (List Char)
  | [] => none
  | x :: xs => if x = c then some xs else none

/-- Model of `datetime.strptime(s, '%Y-%m-%d %H:%M')`. -/
def strptime_datetime (s : List Char) : Option PyDateTime :=
  match parseYear s with
  | none => none
  | some (y, s1) =>
    match expectChar '-' s1 with
    | none => none
    | some s2 =>
      match parseField 1 12 s2 with
      | none => none
      | some (mo, s3) =>
        match expectChar '-' s3 with
        | none => none
        | some s4 =>
          match parseField 1 31 s4 with
          | none => none
          | some (dy, s5) =>
            match expectChar ' ' s5 with
            | none => none
            | some s6 =>
              match parseField 0 23 s6 with
              | none => none
              | some (h, s7) =>
                match expectChar ':' s7 with
                | none => none
                | some s8 =>
                  match parseField 0 59 s8 with
                  | none => none
                  | some (mi, s9) =>
                    if s9 = [] then
                      if valid_dt ⟨y, mo, dy, h, mi⟩ then
                        some ⟨y, mo, dy, h, mi⟩
                      else none
                    else none

/-- Model of `datetime.strptime(s, '%Y-%m-%d')`: midnight time fields. -/
def strptime_date (s : List Char) : Option PyDateTime :=
  match parseYear s with
  | none => none
  | some (y, s1) =>
    match expectChar '-' s1 with
    | none => none
    | some s2 =>
      match parseField 1 12 s2 with
      | none => none
      | some (mo, s3) =>
        match expectChar '-' s3 with
        | none => none
        | some s4 =>
          match parseField 1 31 s4 with
          | none => none
          | some (dy, s5) =>
            if s5 = [] then
              if valid_dt ⟨y, mo, dy, 0, 0⟩ then
                some ⟨y, mo, dy, 0, 0⟩
              else none
            else none

/-- Two-digit zero-padded field. -/
def pad2 (n : Nat) : List Char :=
  [Nat.digitChar (n / 10 % 10), Nat.digitChar (n % 10)]

/-- Four-digit zero-padded year. -/
def pad4 (n : Nat) : List Char :=
  [Nat.digitChar (n / 1000 % 10), Nat.digitChar (n / 100 % 10),
   Nat.digitChar (n / 10 % 10), Nat.digitChar (n % 10)]

/-- Model of `dt.strftime('%Y-%m-%d %H:%M')`. -/
def strftime (d : PyDateTime) : List Char :=
  pad4 d.year ++ '-' :: pad2 d.month ++ '-' :: pad2 d.day ++
    ' ' :: pad2 d.hour ++ ':' :: pad2 d.minute

/-- Model of `utils.normalize_datetime(dt)`: `None` stays `None`; a blank string
becomes `None`; otherwise inner whitespace is collapsed, the string is
parsed as `'%Y-%m-%d %H:%M'` or, failing that, `'%Y-%m-%d'`, and
re-rendered as `'%Y-%m-%d %H:%M'`; anything else raises `ValueError`
(the `.error` branch). -/
def normalize_datetime (dt : Option (List Char)) :
    Except Unit (Option (List Char)) :=
  match dt with
  | none => .ok none
  | some s0 =>
    let s1 := if s0 ≠ [] then pyStrip s0 else s0
    if s1 = [] then .ok none
    else
      let j := joinWords (pyWords s1)
      match strptime_datetime j with
      | some d => .ok (some (strftime d))
      | none =>
        match strptime_date j with
        | some d => .ok (some (strftime d))
        | none => .error ()

/-! Status-flag projections of `set_call_cache`. -/

theorem set_call_cache_status (g : Ctx) (call : Call) (a b c : Nat) :
    (set_call_cache g call a b c).is_open = (call_status call g.nowS).1 ∧
    (set_call_cache g call a b c).is_closed = (call_status call g.nowS).2.1 ∧
    (set_call_cache g call a b c).is_published = (call_status call g.nowS).2.2 := by
  unfold set_call_cache
  cases g.currentUser <;> simp

/-- C1. Call status derivation: for every call document and current time,
`set_call_cache` sets `is_open` iff `opens` is set, `opens ≤ now`, and
either `closes` is unset or the remaining days until `closes` is ≥ 0;
sets `is_closed` iff `opens` is set, `opens ≤ now`, `closes` is set, and
the remaining days until `closes` is < 0; and sets `is_published` iff
`opens` is set and `opens ≤ now`. -/
theorem C1_call_status_derivation (g : Ctx) (call : Call)
    (a b c : Nat) :
    ((set_call_cache g call a b c).is_open = true ↔
      (∃ o, call.opens = some o ∧ o ≤ normalized_local_now g.nowS ∧
        (call.closes = none ∨
         ∃ cl, call.closes = some cl ∧ 0 ≤ days_remaining cl g.nowS))) ∧
    ((set_call_cache g call a b c).is_closed = true ↔
      (∃ o, call.opens = some o ∧ o ≤ normalized_local_now g.nowS ∧
        ∃ cl, call.closes = some cl ∧ days_remaining cl g.nowS < 0)) ∧
    ((set_call_cache g call a b c).is_published = true ↔
      (∃ o, call.opens = some o ∧ o ≤ normalized_local_now g.nowS)) := by
  obtain ⟨h1, h2, h3⟩ := set_call_cache_status g call a b c
  rw [h1, h2, h3]
  unfold call_status
  rcases hop : call.opens with _ | o
  · simp
  · rcases hcl : call.closes with _ | cl
    · simp only []
      by_cases hlt : o > normalized_local_now g.nowS
      · simp [hlt, Nat.not_le_of_lt hlt]
      · simp [hlt, Nat.le_of_not_lt hlt]
    · simp only []
      by_cases hlt : o > normalized_local_now g.nowS
      · simp [hlt, Nat.not_le_of_lt hlt]
      · have hle := Nat.le_of_not_lt hlt
        simp only [hlt, if_false]
        split_ifs with hc1 hc2 hc3 hc4 <;> simp [hle, hlt] <;> linarith

/-- C8. Status flag invariant: for every call and every evaluation of
`set_call_cache`, the resulting cache never has `is_open` and `is_closed`
both true; `is_open` implies `is_published`; `is_closed` implies
`is_published`; and `is_published` is false exactly when the call's
`opens` date is unset or lies in the future. -/
theorem C8_status_flag_invariant (g : Ctx) (call : Call)
    (a b c : Nat) :
    ((set_call_cache g call a b c).is_open &&
     (set_call_cache g call a b c).is_closed) = false ∧
    ((set_call_cache g call a b c).is_open &&
     !(set_call_cache g call a b c).is_published) = false ∧
    ((set_call_cache g call a b c).is_closed &&
     !(set_call_cache g call a b c).is_published) = false ∧
    ((set_call_cache g call a b c).is_published = false ↔
      (call.opens = none ∨
       ∃ o, call.opens = some o ∧ normalized_local_now g.nowS < o)) := by
  obtain ⟨h1, h2, h3⟩ := set_call_cache_status g call a b c
  rw [h1, h2, h3]
  unfold call_status
  rcases hop : call.opens with _ | o
  · simp
  · rcases hcl : call.closes with _ | cl
    · simp only []
      by_cases hlt : o > normalized_local_now g.nowS
      · simp [hlt]
      · simp [hlt]
    · simp only []
      by_cases hlt : o > normalized_local_now g.nowS
      · simp [hlt]
      · simp only [hlt, if_false]
        split_ifs <;> simp [hlt]

/-- C3. Review visibility predicate: `allow_view` returns false when no
user is logged in; returns true when the logged-in user is admin, staff,
the review's reviewer, a chair of the review's call, or the call's
owner; and otherwise returns true iff the call's access flag allows
reviewers to view all reviews and the review is finalized. -/
theorem C3_allow_view (g : Ctx) (review : Review) (call : Call) :
    allow_view g review call = true ↔
      ∃ u, g.currentUser = some u ∧
        (u.role = "admin" ∨ u.role = "staff" ∨
         u.username = review.reviewer ∨
         u.username ∈ call.chairs ∨ u.username = call.owner ∨
         (call.access_allow_reviewers_view_all_reviews = true ∧
          review.finalized = true)) := by
  rcases hu : g.currentUser with _ | u
  · simp [allow_view, hu]
  · simp only [allow_view, hu, g_am_admin, g_am_staff, am_chair, am_owner,
      allow_view_reviews]
    split_ifs with h1 h2 h3 h4 h5 h6 <;> simp_all

/-- C4. Review finalize predicate: `allow_finalize` returns true iff the
review is not finalized, not archived, its errors mapping is empty, some
user is logged in, and that user is the admin, the review's own
reviewer, or the owner of the review's call; in particular it returns
false whenever the review contains any error. -/
theorem C4_allow_finalize (g : Ctx) (review : Review) (call : Call) :
    (allow_finalize g review call = true ↔
      (review.finalized = false ∧ review.archived = false ∧
       review.errors = [] ∧
       ∃ u, g.currentUser = some u ∧
         (u.role = "admin" ∨ u.username = review.reviewer ∨
          u.username = call.owner))) ∧
    (allow_finalize g review call && !decide (review.errors = [])) = false := by
  constructor
  · rcases hu : g.currentUser with _ | u
    · simp [allow_finalize, hu]
    · simp only [allow_finalize, hu, g_am_admin, am_owner]
      split_ifs with h1 h2 h3 h4 h5 h6 <;> simp_all
  · rcases hu : g.currentUser with _ | u <;>
      by_cases he : review.errors = [] <;>
      simp [allow_finalize, hu, he]

/-- C5. Review unfinalize predicate: `allow_unfinalize` returns false
unless the review is finalized, not archived, and some user is logged
in; the admin and the call owner are then always allowed; the review's
own reviewer is allowed only if the call has no reviews-due date or the
remaining days until it is ≥ 0; every other user is denied. -/
theorem C5_allow_unfinalize (g : Ctx) (review : Review) (call : Call) :
    allow_unfinalize g review call = true ↔
      (review.finalized = true ∧ review.archived = false ∧
       ∃ u, g.currentUser = some u ∧
         (u.role = "admin" ∨ u.username = call.owner ∨
          (u.username = review.reviewer ∧
           (call.reviews_due = none ∨
            ∃ d, call.reviews_due = some d ∧
              0 ≤ days_remaining d g.nowS)))) := by
  rcases hu : g.currentUser with _ | u
  · simp [allow_unfinalize, hu]
  · simp only [allow_unfinalize, hu, g_am_admin, am_owner]
    rcases hd : call.reviews_due with _ | d <;>
      split_ifs with h1 h2 h3 h4 h5 h6 <;> simp_all

/-- C6. Derived counts and reviewer flag: `set_call_cache` sets
`submissions_count` iff the session user is admin; for every logged-in
user it sets `my_submissions_count` and `evaluations_count`; and the
final value of `is_reviewer` is, for every logged-in user (including
the admin), exactly the membership of the user's username in the call's
reviewers list, and false when no user is logged in. -/
theorem C6_counts_and_reviewer_flag (g : Ctx) (call : Call)
    (a b c : Nat) :
    ((set_call_cache g call a b c).submissions_count).isSome = g_is_admin g ∧
    ((set_call_cache g call a b c).my_submissions_count).isSome
      = g.currentUser.isSome ∧
    ((set_call_cache g call a b c).evaluations_count).isSome
      = g.currentUser.isSome ∧
    (set_call_cache g call a b c).is_reviewer
      = (match g.currentUser with
         | some u => decide (u.username ∈ call.reviewers)
         | none => false) := by
  rcases hu : g.currentUser with _ | u <;>
    simp [set_call_cache, g_is_admin, hu] <;>
    by_cases hr : u.role = "admin" <;> simp [hr]

/-- C2. Determinism of the access predicates and status derivation:
each of `allow_view`, `allow_edit`, `allow_delete`, `allow_finalize`,
`allow_unfinalize` and the `is_open`/`is_closed`/`is_published`
computation is a function of only the document's stored fields, the
session's role flags (admin, staff, current user's username), the
call's data, and the current date/time: two evaluations whose contexts
agree on those inputs (but may differ in the rest of the request
environment) return equal results. -/
theorem C2_determinism (g1 g2 : Ctx) (review : Review) (call : Call)
    (hname : g1.currentUser.map User.username
      = g2.currentUser.map User.username)
    (hadmin : g_am_admin g1 = g_am_admin g2)
    (hstaff : g_am_staff g1 = g_am_staff g2)
    (hnow : g1.nowS = g2.nowS) :
    allow_view g1 review call = allow_view g2 review call ∧
    allow_edit g1 review call = allow_edit g2 review call ∧
    allow_delete g1 review call = allow_delete g2 review call ∧
    allow_finalize g1 review call = allow_finalize g2 review call ∧
    allow_unfinalize g1 review call = allow_unfinalize g2 review call ∧
    call_status call g1.nowS = call_status call g2.nowS := by
  rcases hu1 : g1.currentUser with _ | u1 <;>
    rcases hu2 : g2.currentUser with _ | u2 <;>
    simp [hu1, hu2] at hname
  · simp [allow_view, allow_edit, allow_delete, allow_finalize,
      allow_unfinalize, hu1, hu2, hnow]
  · simp only [g_am_admin, g_am_staff, hu1, hu2] at hadmin hstaff
    simp [allow_view, allow_edit, allow_delete, allow_finalize,
      allow_unfinalize, am_chair, am_owner, g_am_admin, g_am_staff,
      hu1, hu2, hname, hadmin, hstaff, hnow]

/-- Witness for C2: two contexts equal on the listed inputs but with
different request environments give the same `allow_view` verdict. -/
theorem C2_determinism_witness :
    allow_view
        ⟨some ⟨"eva", "user"⟩, 7200, 0⟩
        ⟨1, "P1", "eva", "C1", true, false, []⟩
        ⟨"C1", some 10, some 200, none, ["eva"], [], "own", true, false⟩
      = allow_view
        ⟨some ⟨"eva", "user"⟩, 7200, 99⟩
        ⟨1, "P1", "eva", "C1", true, false, []⟩
        ⟨"C1", some 10, some 200, none, ["eva"], [], "own", true, false⟩ :=
  (C2_determinism
    ⟨some ⟨"eva", "user"⟩, 7200, 0⟩ ⟨some ⟨"eva", "user"⟩, 7200, 99⟩
    ⟨1, "P1", "eva", "C1", true, false, []⟩
    ⟨"C1", some 10, some 200, none, ["eva"], [], "own", true, false⟩
    (by rfl) (by rfl) (by rfl) (by rfl)).1

/-- An open-ended call whose `opens` has passed derives status open. -/
theorem call_status_open_ended (call : Call) (nowS : Nat) (o : Nat)
    (ho : call.opens = some o) (hc : call.closes = none)
    (hle : o ≤ normalized_local_now nowS) :
    call_status call nowS = (true, false, true) := by
  unfold call_status
  rw [ho, hc]
  simp [Nat.not_lt_of_le hle]

/-- Counterexample to C7: a call that opens in the future (minute 100)
but closes after the current time (minute 1) is returned by
`get_open_calls`, yet its derived status is not open. -/
theorem C7_counterexample :
    ¬ (∀ ct ∈ get_open_calls
        [⟨"F", some 100, some 200, none, [], [], "own", false, false⟩] 60,
        ct.2.1 = true) := by
  decide

/-- C7 amended.  Every call returned by `get_closed_calls` has a
`closes` date at or before the current time and its derived status is
closed.  Every call returned by `get_open_calls` has `opens` set and
either is an open-ended call whose `opens` date has passed — in which
case its derived status is open — or has a `closes` date at or after
the current time (truncated to minutes); a call of the second kind need
not be open, since its `opens` date may lie in the future. -/
theorem C7_amended_listings (db : List Call) (nowS : Nat) :
    (∀ ct ∈ get_closed_calls db nowS,
      (∃ cl, ct.1.closes = some cl ∧ cl ≤ normalized_local_now nowS) ∧
      ct.2.2.1 = true) ∧
    (∀ ct ∈ get_open_calls db nowS,
      ct.1.opens.isSome = true ∧
      ((ct.1.closes = none ∧
        (∃ o, ct.1.opens = some o ∧ o ≤ normalized_local_now nowS) ∧
        ct.2.1 = true) ∨
       (∃ cl, ct.1.closes = some cl ∧ normalized_local_now nowS ≤ cl))) := by
  constructor
  · intro ct hct
    simp only [get_closed_calls, List.mem_filter, List.mem_map,
      List.mem_filter, add_call_tmp] at hct
    obtain ⟨⟨c, ⟨hcdb, hpred⟩, hceq⟩, hclosed⟩ := hct
    rcases hcl : c.closes with _ | cl
    · rw [hcl] at hpred
      simp at hpred
    · rw [hcl] at hpred
      simp at hpred
      refine ⟨⟨cl, ?_, hpred.2⟩, hclosed⟩
      rw [← hceq]
      exact hcl
  · intro ct hct
    simp only [get_open_calls, List.mem_append, List.mem_filter,
      List.mem_map, add_call_tmp] at hct
    rcases hct with ⟨c, ⟨hcdb, hpred⟩, hceq⟩ | ⟨c, ⟨hcdb, hpred⟩, hceq⟩
    · rcases hcl : c.closes with _ | cl
      · rw [hcl] at hpred
        simp at hpred
      · rw [hcl] at hpred
        simp at hpred
        subst hceq
        exact ⟨hpred.1, Or.inr ⟨cl, hcl, hpred.2⟩⟩
    · rcases ho : c.opens with _ | o
      · rw [ho] at hpred
        simp at hpred
      · rw [ho] at hpred
        simp at hpred
        obtain ⟨hole, hnone⟩ := hpred
        subst hceq
        have hst := call_status_open_ended c nowS o ho hnone hole
        refine ⟨by simp [ho], Or.inl ?_⟩
        refine ⟨hnone, ⟨o, ho, hole⟩, ?_⟩
        simp [hst]

/-- Witness for the amended C7: a concrete closed call (opens at minute
0, closes at minute 1, current time minute 2) is listed by
`get_closed_calls` with `closes ≤ now` and status closed. -/
theorem C7_amended_listings_witness :
    (∃ cl, (some 1 : Option Nat) = some cl ∧ cl ≤ normalized_local_now 120) ∧
    (false, true, true).2.1 = true :=
  (C7_amended_listings
      [⟨"C", some 0, some 1, none, [], [], "own", false, false⟩] 120).1
    ⟨⟨"C", some 0, some 1, none, [], [], "own", false, false⟩,
      (false, true, true)⟩
    (by norm_num [get_closed_calls, add_call_tmp, call_status,
      normalized_local_now, days_remaining])

theorem get_reviewer_review_eq_none (db : List Review)
    (pid username : String) :
    get_reviewer_review db pid username = none ↔
      ∀ r ∈ db, r.archived = false → r.proposal = pid →
        r.reviewer = username → False := by
  unfold get_reviewer_review
  rw [List.head?_eq_none_iff, List.filter_eq_nil_iff]
  constructor
  · intro h r hr ha hp hv
    have := h r hr
    simp [ha, hp, hv] at this
  · intro h r hr
    by_cases ha : r.archived
    · simp [ha]
    · simp only [Bool.not_eq_true] at ha
      simp only [ha, Bool.not_false, Bool.true_and, Bool.and_eq_true,
        beq_iff_eq, not_and]
      intro hp hv
      exact h r hr ha hp hv

theorem get_review_eq_some (db : List Review) (rid : Nat) (rv : Review)
    (h : get_review db rid = some rv) : rv ∈ db ∧ rv.rid = rid := by
  unfold get_review at h
  rcases hf : db.filter (fun r => r.rid == rid) with _ | ⟨a, t⟩
  · rw [hf] at h
    simp at h
  · rw [hf] at h
    simp at h
    have hmem : rv ∈ db.filter (fun r => r.rid == rid) := by
      rw [hf, ← h]
      exact List.mem_cons_self a t
    have hmf := List.mem_filter.mp hmem
    exact ⟨hmf.1, by simpa using hmf.2⟩

theorem set_unarchived_fields (r : Review) :
    (set_unarchived r).proposal = r.proposal ∧
    (set_unarchived r).reviewer = r.reviewer ∧
    (set_unarchived r).rid = r.rid := by
  unfold set_unarchived
  split <;> simp

/-- C9. At most one unarchived review per (proposal, reviewer) pair,
and no self-review: `review.create` leaves the database unchanged when
a review for that proposal and reviewer already exists and when the
reviewer is the proposal's own submitter; `review.unarchive` leaves the
database unchanged when an unarchived review for the same proposal and
reviewer exists; and both operations preserve the uniqueness invariant
(for `unarchive`, under distinctness of the stored document ids). -/
theorem C9_review_uniqueness (g : Ctx) (db : List Review)
    (proposal : Proposal) (call : Call) (u : User) (freshId : Nat)
    (rid : Nat) :
    ((get_reviewer_review db proposal.identifier u.username).isSome = true →
      review_create g db proposal call (some u) freshId = db) ∧
    (proposal.user = u.username →
      review_create g db proposal call (some u) freshId = db) ∧
    (unique_unarchived db →
      unique_unarchived (review_create g db proposal call (some u) freshId)) ∧
    (∀ rv, get_review db rid = some rv →
      (get_reviewer_review db rv.proposal rv.reviewer).isSome = true →
      review_unarchive g db rid call = db) ∧
    ((db.map Review.rid).Nodup → unique_unarchived db →
      unique_unarchived (review_unarchive g db rid call)) := by
  refine ⟨?_, ?_, ?_, ?_, ?_⟩
  · intro hsome
    unfold review_create
    dsimp only
    split
    · rfl
    · split
      · rfl
      · rcases hg : get_reviewer_review db proposal.identifier u.username with
          _ | r0
        · rw [hg] at hsome
          simp at hsome
        · rfl
  · intro hself
    unfold review_create
    dsimp only
    split
    · rfl
    · split
      · rfl
      · rcases hg : get_reviewer_review db proposal.identifier u.username with
          _ | r0
        · simp [hself]
        · rfl
  · intro huniq
    unfold review_create
    dsimp only
    split
    · exact huniq
    · split
      · exact huniq
      · rcases hg : get_reviewer_review db proposal.identifier u.username with
          _ | r0
        · dsimp only
          split
          · exact huniq
          · intro r1 h1 r2 h2 ha1 ha2 hp hv
            rw [List.mem_append] at h1 h2
            have hnone := (get_reviewer_review_eq_none db
              proposal.identifier u.username).mp hg
            rcases h1 with h1 | h1 <;> rcases h2 with h2 | h2
            · exact huniq r1 h1 r2 h2 ha1 ha2 hp hv
            · simp at h2
              subst h2
              exact (hnone r1 h1 ha1 (by simpa using hp)
                (by simpa using hv)).elim
            · simp at h1
              subst h1
              exact (hnone r2 h2 ha2 (by simpa using hp.symm)
                (by simpa using hv.symm)).elim
            · simp at h1 h2
              rw [h1, h2]
        · exact huniq
  · intro rv hrv hsome
    unfold review_unarchive
    rw [hrv]
    dsimp only
    by_cases had : (!allow_delete g rv call) = true
    · rw [if_pos had]
    · rw [if_neg had, hsome]
      simp
  · intro hnodup huniq
    unfold review_unarchive
    rcases hrv : get_review db rid with _ | rv
    · exact huniq
    · dsimp only
      split
      · exact huniq
      · split
        · exact huniq
        · rename_i hguard
          intro r1' h1' r2' h2' ha1 ha2 hp hv
          simp only [List.mem_map] at h1' h2'
          obtain ⟨r1, h1, he1⟩ := h1'
          obtain ⟨r2, h2, he2⟩ := h2'
          obtain ⟨hrvmem, hrvrid⟩ := get_review_eq_some db rid rv hrv
          have hinj := List.inj_on_of_nodup_map hnodup
          have hgnone : get_reviewer_review db rv.proposal rv.reviewer
              = none := by
            rcases hx : get_reviewer_review db rv.proposal rv.reviewer with
              _ | x
            · rfl
            · rw [hx] at hguard
              simp at hguard
          have hnone := (get_reviewer_review_eq_none db
            rv.proposal rv.reviewer).mp hgnone
          by_cases hb1 : r1.rid = rid <;> by_cases hb2 : r2.rid = rid
          · have : r1 = r2 := hinj h1 h2 (by rw [hb1, hb2])
            rw [← he1, ← he2, this]
          · have hr1v : r1 = rv := hinj h1 hrvmem (by rw [hb1, hrvrid])
            rw [← he2, if_neg (by simpa using hb2)] at ha2 hp hv ⊢
            rw [← he1, if_pos (by simpa using hb1)] at hp hv
            obtain ⟨hsp, hsv, _⟩ := set_unarchived_fields r1
            rw [hsp, hr1v] at hp
            rw [hsv, hr1v] at hv
            exact (hnone r2 h2 ha2 hp.symm hv.symm).elim
          · have hr2v : r2 = rv := hinj h2 hrvmem (by rw [hb2, hrvrid])
            rw [← he1, if_neg (by simpa using hb1)] at ha1 hp hv ⊢
            rw [← he2, if_pos (by simpa using hb2)] at hp hv
            obtain ⟨hsp, hsv, _⟩ := set_unarchived_fields r2
            rw [hsp, hr2v] at hp
            rw [hsv, hr2v] at hv
            exact (hnone r1 h1 ha1 hp hv).elim
          · have : r1 = r2 := by
              apply huniq r1 h1 r2 h2
              · rw [← he1, if_neg (by simpa using hb1)] at ha1
                exact ha1
              · rw [← he2, if_neg (by simpa using hb2)] at ha2
                exact ha2
              · rw [← he1, if_neg (by simpa using hb1)] at hp
                rw [← he2, if_neg (by simpa using hb2)] at hp
                exact hp
              · rw [← he1, if_neg (by simpa using hb1)] at hv
                rw [← he2, if_neg (by simpa using hb2)] at hv
                exact hv
            rw [← he1, ← he2, this]

/-- Witness for C9: creating a review on a concrete database preserves
the uniqueness invariant. -/
theorem C9_review_uniqueness_witness :
    unique_unarchived (review_create
      ⟨some ⟨"boss", "admin"⟩, 600, 0⟩
      [⟨1, "P1", "rev1", "C1", false, false, []⟩]
      ⟨"P1", "alice", "C1", true⟩
      ⟨"C1", some 0, none, none, ["rev1", "rev2"], [], "own", false, false⟩
      (some ⟨"rev2", "user"⟩) 2) :=
  (C9_review_uniqueness
      ⟨some ⟨"boss", "admin"⟩, 600, 0⟩
      [⟨1, "P1", "rev1", "C1", false, false, []⟩]
      ⟨"P1", "alice", "C1", true⟩
      ⟨"C1", some 0, none, none, ["rev1", "rev2"], [], "own", false, false⟩
      ⟨"rev2", "user"⟩ 2 1).2.2.1 (by decide)

/-! Digit and padding lemmas for the `normalize_datetime` round trip. -/

theorem digitChar_mod_isDigit (k : Nat) :
    (Nat.digitChar (k % 10)).isDigit = true := by
  have h : k % 10 < 10 := Nat.mod_lt _ (by norm_num)
  have hall : ∀ j < 10, (Nat.digitChar j).isDigit = true := by decide
  exact hall _ h

theorem digitVal_digitChar_mod (k : Nat) :
    digitVal (Nat.digitChar (k % 10)) = k % 10 := by
  have h : k % 10 < 10 := Nat.mod_lt _ (by norm_num)
  have hall : ∀ j < 10, digitVal (Nat.digitChar j) = j := by decide
  exact hall _ h

theorem digitChar_mod_not_space (k : Nat) :
    isPySpace (Nat.digitChar (k % 10)) = false := by
  have h : k % 10 < 10 := Nat.mod_lt _ (by norm_num)
  have hall : ∀ j < 10, isPySpace (Nat.digitChar j) = false := by decide
  exact hall _ h

theorem pad4_digits (n : Nat) : ∀ c ∈ pad4 n, c.isDigit = true := by
  intro c hc
  simp only [pad4, List.mem_cons, List.not_mem_nil, or_false] at hc
  rcases hc with h | h | h | h <;> rw [h] <;> exact digitChar_mod_isDigit _

theorem pad2_digits (n : Nat) : ∀ c ∈ pad2 n, c.isDigit = true := by
  intro c hc
  simp only [pad2, List.mem_cons, List.not_mem_nil, or_false] at hc
  rcases hc with h | h <;> rw [h] <;> exact digitChar_mod_isDigit _

theorem pad4_not_space (n : Nat) : ∀ c ∈ pad4 n, isPySpace c = false := by
  intro c hc
  simp only [pad4, List.mem_cons, List.not_mem_nil, or_false] at hc
  rcases hc with h | h | h | h <;> rw [h] <;> exact digitChar_mod_not_space _

theorem pad2_not_space (n : Nat) : ∀ c ∈ pad2 n, isPySpace c = false := by
  intro c hc
  simp only [pad2, List.mem_cons, List.not_mem_nil, or_false] at hc
  rcases hc with h | h <;> rw [h] <;> exact digitChar_mod_not_space _

theorem splitDigits_append (l r : List Char)
    (hl : ∀ c ∈ l, c.isDigit = true) (hr : headNotDigit r = true) :
    splitDigits (l ++ r) = (l, r) := by
  induction l with
  | nil =>
    simp only [List.nil_append]
    cases r with
    | nil => rfl
    | cons c cs =>
      simp only [headNotDigit, Bool.not_eq_true'] at hr
      simp [splitDigits, hr]
  | cons c l ih =>
    simp only [List.cons_append, splitDigits,
      hl c (List.mem_cons_self c l), if_true, List.append_eq]
    rw [ih (fun x hx => hl x (List.mem_cons_of_mem c hx))]

theorem natOfDigits_pad4 (n : Nat) (h : n < 10000) :
    natOfDigits (pad4 n) = n := by
  simp only [natOfDigits, pad4, List.foldl_cons, List.foldl_nil,
    digitVal_digitChar_mod]
  omega

theorem natOfDigits_pad2 (n : Nat) (h : n < 100) :
    natOfDigits (pad2 n) = n := by
  simp only [natOfDigits, pad2, List.foldl_cons, List.foldl_nil,
    digitVal_digitChar_mod]
  omega

theorem parseYear_pad4 (y : Nat) (r : List Char) (hy : y < 10000)
    (hr : headNotDigit r = true) :
    parseYear (pad4 y ++ r) = some (y, r) := by
  unfold parseYear
  rw [splitDigits_append _ _ (pad4_digits y) hr]
  have hlen : (pad4 y).length = 4 := by simp [pad4]
  simp [hlen, natOfDigits_pad4 y hy]

theorem parseField_pad2 (lo hi n : Nat) (r : List Char)
    (h1 : lo ≤ n) (h2 : n ≤ hi) (h3 : n < 100)
    (hr : headNotDigit r = true) :
    parseField lo hi (pad2 n ++ r) = some (n, r) := by
  unfold parseField
  rw [splitDigits_append _ _ (pad2_digits n) hr]
  have hlen : (pad2 n).length = 2 := by simp [pad2]
  simp [hlen, natOfDigits_pad2 n h3, h1, h2]

theorem expectChar_cons (c : Char) (r : List Char) :
    expectChar c (c :: r) = some r := by
  simp [expectChar]

theorem days_in_month_le (y m : Nat) : days_in_month y m ≤ 31 := by
  unfold days_in_month
  split_ifs <;> omega

/-! Whitespace lemmas: stripping and word-splitting fix the output of
`strftime`. -/

theorem pyWordsAcc_nonspace (w : List Char) (acc r : List Char)
    (hw : ∀ c ∈ w, isPySpace c = false) :
    pyWordsAcc acc (w ++ r) = pyWordsAcc (w.reverse ++ acc) r := by
  induction w generalizing acc with
  | nil => simp
  | cons c w ih =>
    simp only [List.cons_append, pyWordsAcc,
      hw c (List.mem_cons_self c w), Bool.false_eq_true, if_false,
      List.append_eq]
    rw [ih (c :: acc) (fun x hx => hw x (List.mem_cons_of_mem c hx))]
    simp [List.append_assoc]

theorem pyWords_word_space (w r : List Char) (hne : w ≠ [])
    (hw : ∀ c ∈ w, isPySpace c = false) :
    pyWords (w ++ ' ' :: r) = w :: pyWords r := by
  unfold pyWords
  rw [pyWordsAcc_nonspace w [] (' ' :: r) hw]
  simp only [List.append_nil, pyWordsAcc]
  rw [if_pos (by decide)]
  rw [if_neg (by simpa using hne)]
  simp

theorem pyWords_single (w : List Char) (hne : w ≠ [])
    (hw : ∀ c ∈ w, isPySpace c = false) :
    pyWords w = [w] := by
  unfold pyWords
  have h := pyWordsAcc_nonspace w [] [] hw
  rw [List.append_nil] at h
  rw [h]
  simp only [List.append_nil, pyWordsAcc]
  rw [if_neg (by simpa using hne)]
  simp

theorem strftime_shape (d : PyDateTime) :
    strftime d =
      (pad4 d.year ++ '-' :: pad2 d.month ++ '-' :: pad2 d.day) ++
        ' ' :: (pad2 d.hour ++ ':' :: pad2 d.minute) := by
  simp [strftime, List.append_assoc]

theorem dateWord_not_space (d : PyDateTime) :
    ∀ c ∈ pad4 d.year ++ '-' :: pad2 d.month ++ '-' :: pad2 d.day,
      isPySpace c = false := by
  intro c hc
  rcases List.mem_append.mp hc with h | h
  · rcases List.mem_append.mp h with h | h
    · exact pad4_not_space _ _ h
    · rcases List.mem_cons.mp h with rfl | h
      · decide
      · exact pad2_not_space _ _ h
  · rcases List.mem_cons.mp h with rfl | h
    · decide
    · exact pad2_not_space _ _ h

theorem timeWord_not_space (d : PyDateTime) :
    ∀ c ∈ pad2 d.hour ++ ':' :: pad2 d.minute, isPySpace c = false := by
  intro c hc
  rcases List.mem_append.mp hc with h | h
  · exact pad2_not_space _ _ h
  · rcases List.mem_cons.mp h with rfl | h
    · decide
    · exact pad2_not_space _ _ h

theorem joinWords_pyWords_strftime (d : PyDateTime) :
    joinWords (pyWords (strftime d)) = strftime d := by
  rw [strftime_shape]
  rw [pyWords_word_space _ _ (by simp [pad4]) (dateWord_not_space d)]
  rw [pyWords_single _ (by simp [pad2]) (timeWord_not_space d)]
  rfl

theorem pyStrip_strftime (d : PyDateTime) :
    pyStrip (strftime d) = strftime d := by
  simp [pyStrip, strftime, pad4, pad2, List.dropWhile_cons,
    digitChar_mod_not_space]

/-! Parsing the formatted string back: the strptime/strftime round
trip. -/

theorem headNotDigit_nil : headNotDigit [] = true := rfl

theorem headNotDigit_dash (x : List Char) :
    headNotDigit ('-' :: x) = true := rfl

theorem headNotDigit_space (x : List Char) :
    headNotDigit (' ' :: x) = true := rfl

theorem headNotDigit_colon (x : List Char) :
    headNotDigit (':' :: x) = true := rfl

theorem strftime_parse_shape (d : PyDateTime) :
    strftime d =
      pad4 d.year ++ ('-' :: (pad2 d.month ++ ('-' :: (pad2 d.day ++
        (' ' :: (pad2 d.hour ++ (':' :: pad2 d.minute))))))) := by
  simp [strftime, List.append_assoc]

theorem parseField_pad2_nil (lo hi n : Nat)
    (h1 : lo ≤ n) (h2 : n ≤ hi) (h3 : n < 100) :
    parseField lo hi (pad2 n) = some (n, []) := by
  have h := parseField_pad2 lo hi n [] h1 h2 h3 headNotDigit_nil
  rwa [List.append_nil] at h

theorem strptime_strftime (d : PyDateTime) (hv : valid_dt d = true) :
    strptime_datetime (strftime d) = some d := by
  have hvp := hv
  simp only [valid_dt, Bool.and_eq_true, decide_eq_true_eq] at hvp
  obtain ⟨⟨⟨⟨⟨⟨⟨hy1, hy2⟩, hm1⟩, hm2⟩, hd1⟩, hd2⟩, hh⟩, hmi⟩ := hvp
  have hy4 : d.year < 10000 := by omega
  have hm3 : d.month < 100 := by omega
  have hd31 : d.day ≤ 31 := le_trans hd2 (days_in_month_le _ _)
  have hd3 : d.day < 100 := by omega
  have hh4 : d.hour < 100 := by omega
  have hmi4 : d.minute < 100 := by omega
  rw [strftime_parse_shape]
  simp only [strptime_datetime, parseYear_pad4, parseField_pad2,
    parseField_pad2_nil, expectChar_cons, headNotDigit_dash,
    headNotDigit_space, headNotDigit_colon, headNotDigit_nil, hy4, hm1,
    hm2, hm3, hd1, hd31, hd3, hh, hh4, hmi, hmi4, Nat.zero_le, hv,
    if_true]

theorem strptime_datetime_valid (s : List Char) (d : PyDateTime)
    (h : strptime_datetime s = some d) : valid_dt d = true := by
  unfold strptime_datetime at h
  rcases h1 : parseYear s with _ | ⟨y, s1⟩ <;> rw [h1] at h
  · simp at h
  · simp only [] at h
    rcases h2 : expectChar '-' s1 with _ | s2 <;> rw [h2] at h
    · simp at h
    · simp only [] at h
      rcases h3 : parseField 1 12 s2 with _ | ⟨mo, s3⟩ <;> rw [h3] at h
      · simp at h
      · simp only [] at h
        rcases h4 : expectChar '-' s3 with _ | s4 <;> rw [h4] at h
        · simp at h
        · simp only [] at h
          rcases h5 : parseField 1 31 s4 with _ | ⟨dy, s5⟩ <;> rw [h5] at h
          · simp at h
          · simp only [] at h
            rcases h6 : expectChar ' ' s5 with _ | s6 <;> rw [h6] at h
            · simp at h
            · simp only [] at h
              rcases h7 : parseField 0 23 s6 with _ | ⟨hr, s7⟩ <;>
                rw [h7] at h
              · simp at h
              · simp only [] at h
                rcases h8 : expectChar ':' s7 with _ | s8 <;> rw [h8] at h
                · simp at h
                · simp only [] at h
                  rcases h9 : parseField 0 59 s8 with _ | ⟨mi, s9⟩ <;>
                    rw [h9] at h
                  · simp at h
                  · simp only [] at h
                    split_ifs at h with hnil hval
                    · injection h with h
                      rw [← h]
                      exact hval

theorem strptime_date_valid (s : List Char) (d : PyDateTime)
    (h : strptime_date s = some d) : valid_dt d = true := by
  unfold strptime_date at h
  rcases h1 : parseYear s with _ | ⟨y, s1⟩ <;> rw [h1] at h
  · simp at h
  · simp only [] at h
    rcases h2 : expectChar '-' s1 with _ | s2 <;> rw [h2] at h
    · simp at h
    · simp only [] at h
      rcases h3 : parseField 1 12 s2 with _ | ⟨mo, s3⟩ <;> rw [h3] at h
      · simp at h
      · simp only [] at h
        rcases h4 : expectChar '-' s3 with _ | s4 <;> rw [h4] at h
        · simp at h
        · simp only [] at h
          rcases h5 : parseField 1 31 s4 with _ | ⟨dy, s5⟩ <;> rw [h5] at h
          · simp at h
          · simp only [] at h
            split_ifs at h with hnil hval
            · injection h with h
              rw [← h]
              exact hval

theorem strftime_ne_nil (d : PyDateTime) : strftime d ≠ [] := by
  simp [strftime, pad4]

theorem normalize_strftime (d : PyDateTime) (hv : valid_dt d = true) :
    normalize_datetime (some (strftime d)) = .ok (some (strftime d)) := by
  simp only [normalize_datetime, ne_eq, strftime_ne_nil d,
    not_false_iff, if_true, if_neg (strftime_ne_nil d),
    pyStrip_strftime, joinWords_pyWords_strftime,
    strptime_strftime d hv]
  simp

theorem pyStrip_nil : pyStrip ([] : List Char) = [] := rfl

/-- C10. `normalize_datetime` is total on its error branch and
idempotent: it returns `None` iff the input is `None` or blank after
stripping; for a non-blank input it either returns a string in
'YYYY-MM-DD HH:MM' form (the zero-padded rendering of a valid datetime)
or raises `ValueError`; and whenever it succeeds with result `r`,
running it again on `r` returns `r`. -/
theorem C10_normalize_datetime (dt : Option (List Char)) :
    (normalize_datetime dt = .ok none ↔
      (dt = none ∨ ∃ s, dt = some s ∧ pyStrip s = [])) ∧
    (∀ s, dt = some s → pyStrip s ≠ [] →
      ((∃ d, valid_dt d = true ∧
        normalize_datetime dt = .ok (some (strftime d))) ∨
       normalize_datetime dt = .error ())) ∧
    (∀ r, normalize_datetime dt = .ok (some r) →
      normalize_datetime (some r) = .ok (some r)) := by
  rcases dt with _ | s0
  · refine ⟨by simp [normalize_datetime], ?_, ?_⟩
    · intro s hs
      exact absurd hs (by simp)
    · intro r hr
      simp [normalize_datetime] at hr
  · have hs1 : (if s0 ≠ [] then pyStrip s0 else s0) = pyStrip s0 := by
      by_cases h : s0 = []
      · subst h
        simp [pyStrip_nil]
      · simp [h]
    refine ⟨?_, ?_, ?_⟩
    · simp only [normalize_datetime, hs1]
      by_cases h2 : pyStrip s0 = []
      · simp [h2]
      · rw [if_neg h2]
        rcases hp : strptime_datetime (joinWords (pyWords (pyStrip s0)))
          with _ | d
        · rcases hq : strptime_date (joinWords (pyWords (pyStrip s0)))
            with _ | d
          · simp [h2]
          · simp [h2]
        · simp [h2]
    · intro s hs hne
      injection hs with hs
      subst hs
      simp only [normalize_datetime, hs1]
      rw [if_neg hne]
      rcases hp : strptime_datetime (joinWords (pyWords (pyStrip s0)))
        with _ | d
      · rcases hq : strptime_date (joinWords (pyWords (pyStrip s0)))
          with _ | d
        · right
          rfl
        · left
          exact ⟨d, strptime_date_valid _ _ hq, rfl⟩
      · left
        exact ⟨d, strptime_datetime_valid _ _ hp, rfl⟩
    · intro r hr
      simp only [normalize_datetime, hs1] at hr
      by_cases h2 : pyStrip s0 = []
      · rw [if_pos h2] at hr
        exact absurd hr (by simp)
      · rw [if_neg h2] at hr
        rcases hp : strptime_datetime (joinWords (pyWords (pyStrip s0)))
          with _ | d
        · rcases hq : strptime_date (joinWords (pyWords (pyStrip s0)))
            with _ | d
          · rw [hp, hq] at hr
            exact absurd hr (by simp)
          · rw [hp, hq] at hr
            simp only [] at hr
            injection hr with hr
            injection hr with hr
            rw [← hr]
            exact normalize_strftime d (strptime_date_valid _ _ hq)
        · rw [hp] at hr
          simp only [] at hr
          injection hr with hr
          injection hr with hr
          rw [← hr]
          exact normalize_strftime d (strptime_datetime_valid _ _ hp)

/-- Witness for C10: normalizing an already-normalized concrete string
returns it unchanged, via the idempotence part of the theorem. -/
theorem C10_normalize_datetime_witness :
    normalize_datetime (some ['2', '0', '2', '1', '-', '0', '2', '-',
        '0', '3', ' ', '0', '4', ':', '0', '5'])
      = .ok (some ['2', '0', '2', '1', '-', '0', '2', '-',
        '0', '3', ' ', '0', '4', ':', '0', '5']) :=
  (C10_normalize_datetime (some ['2', '0', '2', '1', '-', '0', '2', '-',
      '0', '3', ' ', '0', '4', ':', '0', '5'])).2.2
    ['2', '0', '2', '1', '-', '0', '2', '-', '0', '3', ' ', '0', '4',
      ':', '0', '5'] rfl

end Anubis
